import Mathlib

/-!
Shallow embedding of the core of `src/main.py` (image review panel):
ingestion (`parse_file`, `clean_data`), hierarchy building
(`transform_to_hierarchy`) and the flattening loop of `export_file`.

Modelling conventions:
* A pandas cell value is a `Val` (string, integer or boolean scalar).
* A DataFrame is a `Table`: a list of column names plus rows of optional
  cells (`none` models NaN, i.e. a missing value).
* `transform_to_hierarchy` is modelled on the DataFrame records restricted
  to the four recognized columns (`Row`); the upload route only reaches it
  after `clean_data`, and every claim assumes the four columns are present,
  so the source's conditions `'content' in prompt_group.columns` and
  `'content' in row` (a pandas `in` on a Series tests the index, i.e. the
  labels, not the values) are then always true.
* `df.groupby(col)` (default `sort=True`) yields the distinct keys in
  ascending order, each with that key's rows in their original order;
  `pd_groupby` reproduces this with `sortKeys` (sorted distinct keys) and
  `List.filter`.  Python dicts are modelled as association lists in
  insertion order (Python 3.7+ dict semantics).  pandas raises when asked
  to sort mixed-type key columns, so key collisions under `str()` (such as
  `123` vs `"123"`) cannot reach the dict, and the association-list model
  never needs last-write-wins semantics.
* Python string helpers (`strip`, `lower`, `endswith`) are implemented on
  the character list of the string so that they are executable by `decide`.
-/

/-- A scalar cell value as pandas/Python sees it. -/
inductive Val where
  | str (s : String)
  | nat (n : Nat)
  | bool (b : Bool)
deriving DecidableEq, Repr

/-- Python `str()` on a scalar cell value (line 61: `user_id_str = str(user_id)`). -/
def pyStr : Val → String
  | .str s => s
  | .nat n => toString n
  | .bool b => if b then "True" else "False"

/-- Python truthiness of a scalar: `False`, `0` and `""` are falsy. -/
def Val.truthy : Val → Bool
  | .str s => decide (s ≠ "")
  | .nat n => decide (n ≠ 0)
  | .bool b => b

/-- Python `str.lower()`, as used by the case-insensitive column match of `clean_data`. -/
def lowerStr (s : String) : String := ⟨s.data.map Char.toLower⟩

/-- Python `str.strip()` as applied to a column name by `df.columns.str.strip()`. -/
def stripStr (s : String) : String :=
  ⟨((s.data.dropWhile Char.isWhitespace).reverse.dropWhile Char.isWhitespace).reverse⟩

/-- Python `str.endswith`, on the underlying character lists. -/
def endsWithStr (s suffix : String) : Bool := suffix.data.isSuffixOf s.data

/-- Which pandas reader `parse_file` dispatches to. -/
inductive ParserKind where
  | csv
  | excel
deriving DecidableEq, Repr

/-- The format dispatch of `parse_file` (`src/main.py` lines 9-16): a filename ending
in `.csv` goes to `pd.read_csv`, one ending in `.xls` or `.xlsx` goes to
`pd.read_excel`, and anything else raises `ValueError("Unsupported file format")`. -/
def parse_file_format (filename : String) : Except String ParserKind :=
  if endsWithStr filename ".csv" then .ok .csv
  else if endsWithStr filename ".xls" || endsWithStr filename ".xlsx" then .ok .excel
  else .error "Unsupported file format"

/-- A cell: `none` is NaN (a missing value in the parsed file). -/
abbrev Cell := Option Val

/-- A parsed DataFrame: column names plus the grid of cells. -/
structure Table where
  cols : List String
  cells : List (List Cell)
deriving DecidableEq, Repr

/-- Column-name normalization of `parse_file` (line 19): `df.columns.str.strip()`. -/
def strip_columns (t : Table) : Table := { t with cols := t.cols.map stripStr }

/-- The four recognized columns (line 29). -/
def requiredCols : List String := ["userId", "url", "title", "content"]

/-- One iteration of `clean_data`'s reconciliation loop (lines 33-44): the first
column label whose lowercase form matches the missing name `m` is renamed to
`m` (`df.rename` relabels every occurrence of that label, and the loop breaks
after the first match); no match leaves the header unchanged (`pass`). -/
def rename_step (cs : List String) (m : String) : List String :=
  match cs.find? (fun c => lowerStr c == lowerStr m) with
  | some c => cs.map (fun x => if x == c then m else x)
  | none => cs

/-- The column reconciliation of `clean_data` (lines 29-44): the list of required
names missing from the header is computed once up front, then each one is
reconciled in turn. -/
def clean_cols (cols : List String) : List String :=
  let missing := requiredCols.filter (fun m => !cols.contains m)
  missing.foldl rename_step cols

/-- The fill `df.fillna('')` (line 47): every NaN cell, in every column, becomes `""`. -/
def fillna (t : Table) : Table :=
  { t with cells := t.cells.map (fun r => r.map (fun c => some (c.getD (Val.str "")))) }

/-- The function `clean_data` (lines 22-48): column reconciliation followed by the blanket fill. -/
def clean_data (t : Table) : Table := fillna { t with cols := clean_cols t.cols }

/-- The ingestion pipeline of the upload route (lines 109-110) at the table level:
`clean_data(parse_file(file))`, with the byte-decoding of the pandas readers
treated as the external collaborator that produced the `Table`. -/
def ingest (t : Table) : Table := clean_data (strip_columns t)

/-- A DataFrame record restricted to the four recognized columns. -/
structure Row where
  userId : Val
  url : Val
  title : Val
  content : Val
deriving DecidableEq, Repr

/-- Cell access `row[name]` for a table record.  A genuinely absent column would raise a
`KeyError` in pandas; the model totalizes with `""`, and every theorem using
`getCell` has hypotheses putting the four columns in place. -/
def getCell (cols : List String) (r : List Cell) (name : String) : Val :=
  match List.indexOf? name cols with
  | some i => (r.getD i none).getD (Val.str "")
  | none => Val.str ""

/-- The record view of a table on the four recognized columns. -/
def toRows (t : Table) : List Row :=
  t.cells.map (fun r =>
    { userId := getCell t.cols r "userId", url := getCell t.cols r "url",
      title := getCell t.cols r "title", content := getCell t.cols r "content" })

/-- Lexicographic order on character lists by code point, as Python compares
strings. -/
def charListLe : List Char → List Char → Bool
  | [], _ => true
  | _ :: _, [] => false
  | c :: cs, d :: ds =>
    if c.toNat < d.toNat then true
    else if d.toNat < c.toNat then false
    else charListLe cs ds

/-- Python string order. -/
def strLe (s t : String) : Bool := charListLe s.data t.data

/-- Key comparison used to model pandas' sorted groupby keys; inside one scalar
type it is the usual order (pandas raises on mixed-type key columns, so the
cross-constructor ordering is arbitrary and never observed). -/
def valLe : Val → Val → Bool
  | .str s, .str t => strLe s t
  | .nat m, .nat n => decide (m ≤ n)
  | .bool a, .bool b => !a || b
  | .str _, _ => true
  | _, .str _ => false
  | .nat _, _ => true
  | _, .nat _ => false

/-- Insertion step of the key sort. -/
def insertVal (v : Val) : List Val → List Val
  | [] => [v]
  | w :: ws => if valLe v w then v :: w :: ws else w :: insertVal v ws

/-- Insertion sort of groupby keys. -/
def sortVals (l : List Val) : List Val := l.foldr insertVal []

/-- pandas groupby keys: the distinct key values in ascending order. -/
def sortKeys (l : List Val) : List Val := sortVals l.dedup

/-- pandas `df.groupby(key)` with the default `sort=True`: sorted distinct keys, each
paired with the rows carrying that key, kept in their original order
(groupby is stable inside a group). -/
def pd_groupby {α : Type} (key : α → Val) (l : List α) : List (Val × List α) :=
  (sortKeys (l.map key)).map (fun k => (k, l.filter (fun a => decide (key a = k))))

/-- An image dict of the hierarchy, as an association list (the annotation step
may add `is_defective` / `review_comment` keys to it). -/
abbrev Img := List (String × Val)

/-- A prompt group: `{'title': ..., 'content': ..., 'images': [...]}` (lines 78-82). -/
structure Prompt where
  title : Val
  content : Val
  images : List Img
deriving DecidableEq, Repr

/-- A user entry: `{'userId': ..., 'prompts': {...}}` (lines 62-65). -/
structure User where
  userId : String
  prompts : List (Val × Prompt)
deriving DecidableEq, Repr

/-- The hierarchy: the `users_data` dict, keyed by `str(user_id)`. -/
abbrev Hierarchy := List (String × User)

/-- The image dict appended at lines 85-90: since the `content` column is present,
`'content' in row` is true and the image carries the row's own content; `_`
from `iterrows()` is the row's original DataFrame index. -/
def mkImg (p : Nat × Row) : Img :=
  [("url", p.2.url), ("content", p.2.content), ("original_row_index", Val.nat p.1)]

/-- The expression `prompt_group['content'].iloc[0]` (line 76): the first row's content.  The
empty case never arises (groupby groups are nonempty); `''` mirrors the
source's fallback for a missing content column. -/
def firstContent : List (Nat × Row) → Val
  | [] => Val.str ""
  | p :: _ => p.2.content

/-- The function `transform_to_hierarchy` (lines 50-92): group the indexed rows by `userId`,
then inside each user by `title`; each prompt takes the first row's content
and collects one image dict per row, in row order. -/
def build (rows : List Row) : Hierarchy :=
  (pd_groupby (fun p => p.2.userId) rows.enum).map (fun ug =>
    (pyStr ug.1,
      { userId := pyStr ug.1,
        prompts := (pd_groupby (fun p => p.2.title) ug.2).map (fun tg =>
          (tg.1,
            { title := tg.1,
              content := firstContent tg.2,
              images := tg.2.map mkImg })) }))

/-- One exported row (lines 143-150), with the fixed column set. -/
structure FlatRecord where
  userId : String
  title : Val
  content : Val
  url : Val
  is_defective : Val
  review_comment : Val
deriving DecidableEq, Repr

/-- Dict access `img.get(key, default)` on a Python dict modelled as an association list. -/
def dget (img : Img) (k : String) (d : Val) : Val := (List.lookup k img).getD d

/-- The flattening loop of `export_file` (lines 125-151): iterate users, then
prompts, then images; under `reviewed_only` an image is skipped when
`not is_defective and not review_comment` (Python truthiness); each kept
image yields one `FlatRecord` carrying the prompt-level `content`.  The typed
`User`/`Prompt` fields play the role of `user_info.get('prompts', {})` and
`prompt_info.get('content', '')`, which always succeed on this shape. -/
def flatten (users_data : Hierarchy) (reviewed_only : Bool) : List FlatRecord :=
  (users_data.map (fun su =>
    (su.2.prompts.map (fun tp =>
      ((tp.2.images.filter (fun img =>
          !reviewed_only || (dget img "is_defective" (Val.bool false)).truthy
            || (dget img "review_comment" (Val.str "")).truthy)).map (fun img =>
        { userId := su.1
          title := tp.1
          content := tp.2.content
          url := dget img "url" (Val.str "")
          is_defective := dget img "is_defective" (Val.bool false)
          review_comment := dget img "review_comment" (Val.str "") })))).flatten)).flatten

/-- Modelled from the spec's words ("first-seen order of distinct titles"): the
distinct values of a list in order of first appearance.  Used only to state
what the spec asserts about traversal order. -/
def firstSeenAux (seen : List Val) : List Val → List Val
  | [] => []
  | v :: vs => if seen.contains v then firstSeenAux seen vs else v :: firstSeenAux (v :: seen) vs

/-- First-seen distinct values of a list. -/
def firstSeen (l : List Val) : List Val := firstSeenAux [] l

/-- Scalar is a string. -/
def Val.isStr : Val → Bool
  | .str _ => true
  | _ => false

/-- A normalized RowSet in the sense of the spec: grouping keys are strings. -/
def NormalizedRows (rows : List Row) : Prop :=
  ∀ r ∈ rows, r.userId.isStr = true ∧ r.title.isStr = true

/-- The indexed rows of one user partition (`grouped_users` member for key `u`). -/
def rowsOfUser (rows : List Row) (u : Val) : List (Nat × Row) :=
  rows.enum.filter (fun p => decide (p.2.userId = u))

/-- The indexed rows of one (user, title) partition. -/
def rowsOfGroup (rows : List Row) (u t : Val) : List (Nat × Row) :=
  rows.enum.filter (fun p => decide (p.2.userId = u) && decide (p.2.title = t))

section Infrastructure

theorem insertVal_perm (v : Val) (l : List Val) : List.Perm (insertVal v l) (v :: l) := by
  induction l with
  | nil => exact List.Perm.refl _
  | cons w ws ih =>
    simp only [insertVal]
    split
    · exact List.Perm.refl _
    · exact List.Perm.trans (List.Perm.cons w ih) (List.Perm.swap v w ws)

theorem sortVals_perm (l : List Val) : List.Perm (sortVals l) l := by
  induction l with
  | nil => exact List.Perm.refl _
  | cons v vs ih => exact List.Perm.trans (insertVal_perm v (sortVals vs)) (List.Perm.cons v ih)

theorem mem_sortVals {v : Val} {l : List Val} : v ∈ sortVals l ↔ v ∈ l :=
  (sortVals_perm l).mem_iff

theorem sortKeys_mem {v : Val} {l : List Val} : v ∈ sortKeys l ↔ v ∈ l := by
  unfold sortKeys
  rw [mem_sortVals, List.mem_dedup]

theorem sortKeys_nodup (l : List Val) : (sortKeys l).Nodup :=
  ((sortVals_perm l.dedup).nodup_iff).2 l.nodup_dedup

theorem pd_groupby_mem {α : Type} {key : α → Val} {l : List α} {kg : Val × List α}
    (h : kg ∈ pd_groupby key l) :
    kg.1 ∈ l.map key ∧ kg.2 = l.filter (fun a => decide (key a = kg.1)) := by
  unfold pd_groupby at h
  obtain ⟨k, hk, rfl⟩ := List.mem_map.1 h
  exact ⟨sortKeys_mem.1 hk, rfl⟩

theorem pd_groupby_covers {α : Type} (key : α → Val) (l : List α) {a : α} (ha : a ∈ l) :
    ∃ kg ∈ pd_groupby key l, kg.1 = key a ∧ a ∈ kg.2 := by
  refine ⟨(key a, l.filter (fun b => decide (key b = key a))), ?_, rfl, ?_⟩
  · unfold pd_groupby
    exact List.mem_map.2 ⟨key a, sortKeys_mem.2 (List.mem_map_of_mem key ha), rfl⟩
  · exact List.mem_filter.2 ⟨ha, by simp⟩

theorem flatten_filter_perm {α : Type} (key : α → Val) :
    ∀ (ks : List Val) (l : List α), ks.Nodup → (∀ a ∈ l, key a ∈ ks) →
    List.Perm ((ks.map (fun k => l.filter (fun a => decide (key a = k)))).flatten) l := by
  intro ks
  induction ks with
  | nil =>
    intro l _ hcov
    cases l with
    | nil => exact List.Perm.refl _
    | cons a t => exact absurd (hcov a (List.mem_cons_self a t)) (List.not_mem_nil _)
  | cons k ks ih =>
    intro l hnd hcov
    simp only [List.map_cons, List.flatten_cons]
    have hrw : ∀ k' ∈ ks, l.filter (fun a => decide (key a = k'))
        = (l.filter (fun a => !decide (key a = k))).filter (fun a => decide (key a = k')) := by
      intro k' hk'
      rw [List.filter_filter]
      apply List.filter_congr
      intro a _
      have hkk' : k' ≠ k := by
        intro hc
        exact (List.nodup_cons.1 hnd).1 (hc ▸ hk')
      by_cases h : key a = k'
      · have hne : key a ≠ k := by
          rw [h]
          exact hkk'
        simp [h, hne, hkk']
      · simp [h]
    rw [List.map_congr_left hrw]
    have hcov' : ∀ a ∈ l.filter (fun a => !decide (key a = k)), key a ∈ ks := by
      intro a ha
      obtain ⟨hal, hak⟩ := List.mem_filter.1 ha
      have := hcov a hal
      simp only [Bool.not_eq_true', decide_eq_false_iff_not] at hak
      rcases List.mem_cons.1 this with h | h
      · exact absurd h hak
      · exact h
    have hperm := ih (l.filter (fun a => !decide (key a = k))) (List.nodup_cons.1 hnd).2 hcov'
    exact List.Perm.trans (hperm.append_left _) (List.filter_append_perm _ l)

theorem pd_groupby_flatten_perm {α : Type} (key : α → Val) (l : List α) :
    List.Perm (((pd_groupby key l).map Prod.snd).flatten) l := by
  unfold pd_groupby
  rw [List.map_map]
  exact flatten_filter_perm key _ l (sortKeys_nodup _)
    (fun a ha => sortKeys_mem.2 (List.mem_map_of_mem key ha))

theorem flatten_map_perm {α β : Type} (L : List β) (f g : β → List α)
    (h : ∀ b ∈ L, List.Perm (f b) (g b)) :
    List.Perm ((L.map f).flatten) ((L.map g).flatten) := by
  induction L with
  | nil => exact List.Perm.refl _
  | cons b t ih =>
    simp only [List.map_cons, List.flatten_cons]
    exact (h b (List.mem_cons_self b t)).append
      (ih (fun b' hb' => h b' (List.mem_cons_of_mem b hb')))

theorem enum_map_val {α β : Type} (f : α → β) (l : List α) :
    l.enum.map (fun p => f p.2) = l.map f := by
  rw [show (fun p : Nat × α => f p.2) = f ∘ Prod.snd from rfl, ← List.map_map,
    List.enum_map_snd]

theorem enumFrom_filter_snd {α : Type} (q : α → Bool) :
    ∀ (n : Nat) (l : List α),
      ((List.enumFrom n l).filter (fun p => q p.2)).map Prod.snd = l.filter q := by
  intro n l
  induction l generalizing n with
  | nil => rfl
  | cons a t ih =>
    simp only [List.enumFrom, List.filter_cons]
    by_cases h : q a
    · simp only [h, if_true, List.map_cons, ih]
    · simp only [h, if_false]
      exact ih (n + 1)

theorem enum_filter_snd {α : Type} (q : α → Bool) (l : List α) :
    (l.enum.filter (fun p => q p.2)).map Prod.snd = l.filter q :=
  enumFrom_filter_snd q 0 l

theorem snd_mem_of_mem_enum {α : Type} {p : Nat × α} {l : List α} (h : p ∈ l.enum) :
    p.2 ∈ l := by
  have := List.mem_map_of_mem Prod.snd h
  rwa [List.enum_map_snd] at this

/-- The function `transform_to_hierarchy` displayed over the user partitions. -/
theorem build_def (rows : List Row) :
    build rows = (sortKeys (rows.map (·.userId))).map (fun u =>
      (pyStr u,
        { userId := pyStr u,
          prompts := (pd_groupby (fun p => p.2.title) (rowsOfUser rows u)).map (fun tg =>
            (tg.1, { title := tg.1, content := firstContent tg.2,
                     images := tg.2.map mkImg })) })) := by
  show (pd_groupby (fun p => p.2.userId) rows.enum).map _ = _
  unfold pd_groupby rowsOfUser
  rw [enum_map_val (·.userId) rows, List.map_map]
  rfl

theorem map_const_replicate {α β : Type} (l : List α) (b : β) :
    l.map (fun _ => b) = List.replicate l.length b := by
  induction l with
  | nil => rfl
  | cons a t ih => simp [List.replicate, ih]

theorem filter_flatten_comm {α : Type} (p : α → Bool) (L : List (List α)) :
    L.flatten.filter p = (L.map (List.filter p)).flatten := by
  induction L with
  | nil => rfl
  | cons l t ih => simp [List.filter_append, ih]

theorem map_filter_comm {α β : Type} (f : α → β) (p : β → Bool) (l : List α) :
    (l.map f).filter p = (l.filter (fun a => p (f a))).map f := by
  induction l with
  | nil => rfl
  | cons a t ih =>
    simp only [List.map_cons, List.filter_cons]
    by_cases h : p (f a) <;> simp [h, ih]

/-- Anatomy of a record produced by the flattening loop. -/
theorem flatten_mem_elim {h : Hierarchy} {b : Bool} {rec : FlatRecord}
    (hr : rec ∈ flatten h b) :
    ∃ su ∈ h, ∃ tp ∈ su.2.prompts, ∃ img ∈ tp.2.images,
      rec = { userId := su.1, title := tp.1, content := tp.2.content,
              url := dget img "url" (Val.str ""),
              is_defective := dget img "is_defective" (Val.bool false),
              review_comment := dget img "review_comment" (Val.str "") } := by
  unfold flatten at hr
  rw [List.mem_flatten] at hr
  obtain ⟨l, hl, hrl⟩ := hr
  obtain ⟨su, hsu, rfl⟩ := List.mem_map.1 hl
  rw [List.mem_flatten] at hrl
  obtain ⟨l', hl', hrl'⟩ := hrl
  obtain ⟨tp, htp, rfl⟩ := List.mem_map.1 hl'
  obtain ⟨img, himg, rfl⟩ := List.mem_map.1 hrl'
  exact ⟨su, hsu, tp, htp, img, List.mem_of_mem_filter himg, rfl⟩

/-- Every row lands in the hierarchy, under its user's key and its title's prompt. -/
theorem build_covers (rows : List Row) :
    ∀ p ∈ rows.enum, ∃ su ∈ build rows, su.1 = pyStr p.2.userId
      ∧ ∃ tp ∈ su.2.prompts, tp.1 = p.2.title ∧ mkImg p ∈ tp.2.images := by
  intro p hp
  obtain ⟨ug, hug, hkey, hpug⟩ := pd_groupby_covers (fun q => q.2.userId) rows.enum hp
  refine ⟨_, List.mem_map_of_mem _ hug, by rw [hkey], ?_⟩
  obtain ⟨tg, htg, htkey, hptg⟩ := pd_groupby_covers (fun q => q.2.title) ug.2 hpug
  exact ⟨_, List.mem_map_of_mem _ htg, htkey, List.mem_map_of_mem mkImg hptg⟩

end Infrastructure

section Claims

/-- C8: `parse_file` raises `ValueError("Unsupported file format")` iff the declared
filename ends in none of `.csv`, `.xls`, `.xlsx`; a `.csv` suffix dispatches to
`pd.read_csv` and an `.xls`/`.xlsx` suffix (tested after the csv branch, as in
the source's elif) to `pd.read_excel`.  The dispatch is a function of the
filename alone — no content sniffing. -/
theorem claim_C8_dispatch (filename : String) :
    (parse_file_format filename = Except.error "Unsupported file format"
      ↔ ¬(endsWithStr filename ".csv" = true ∨ endsWithStr filename ".xls" = true
          ∨ endsWithStr filename ".xlsx" = true))
    ∧ (endsWithStr filename ".csv" = true →
        parse_file_format filename = Except.ok ParserKind.csv)
    ∧ (endsWithStr filename ".csv" = false →
        (endsWithStr filename ".xls" = true ∨ endsWithStr filename ".xlsx" = true) →
        parse_file_format filename = Except.ok ParserKind.excel) := by
  unfold parse_file_format
  cases h1 : endsWithStr filename ".csv" <;>
    cases h2 : endsWithStr filename ".xls" <;>
      cases h3 : endsWithStr filename ".xlsx" <;>
        simp [h1, h2, h3]

/-- C8 witness: an `.xls` filename dispatches to the Excel reader. -/
theorem claim_C8_dispatch_witness :
    parse_file_format "photos.xls" = Except.ok ParserKind.excel :=
  (claim_C8_dispatch "photos.xls").2.2 (by decide) (Or.inl (by decide))

/-- Fixture: a single well-formed row. -/
def rowA : Row :=
  { userId := Val.str "u1", url := Val.str "http://a", title := Val.str "T1",
    content := Val.str "desc" }

/-- C9 counterexample: the image dict built for a row carries the extra key
`original_row_index` besides `url` and `content`, so the built image does not
consist of exactly the fields `url` and `content` as the claim states. -/
theorem claim_C9_counterexample :
    ((build [rowA]).map (fun su => su.2.prompts.map (fun tp =>
        tp.2.images.map (fun img => img.map Prod.fst))))
      = [[[["url", "content", "original_row_index"]]]]
    ∧ ((build [rowA]).map (fun su => su.2.prompts.map (fun tp =>
        tp.2.images.map (fun img => img.map Prod.fst))))
      ≠ [[[["url", "content"]]]] := by decide

/-- C9 amended: each user entry holds `userId` and `prompts` keyed by title, and
every image dict the builder emits carries exactly the keys `url`, `content`
and `original_row_index` (the annotation fields are added only later). -/
theorem claim_C9_image_fields (rows : List Row) :
    ∀ su ∈ build rows, ∀ tp ∈ su.2.prompts, ∀ img ∈ tp.2.images,
      img.map Prod.fst = ["url", "content", "original_row_index"] := by
  intro su hsu tp htp img himg
  rw [build_def] at hsu
  obtain ⟨u, hu, rfl⟩ := List.mem_map.1 hsu
  simp only at htp
  obtain ⟨tg, htg, rfl⟩ := List.mem_map.1 htp
  simp only at himg
  obtain ⟨p, hp, rfl⟩ := List.mem_map.1 himg
  rfl

/-- Dummy hierarchy entry for `getD`. -/
def dummyUser : String × User := ("", { userId := "", prompts := [] })

/-- Dummy prompt entry for `getD`. -/
def dummyPrompt : Val × Prompt :=
  (Val.str "", { title := Val.str "", content := Val.str "", images := [] })

/-- C9 witness: the single image built from `rowA` carries the three keys. -/
theorem claim_C9_image_fields_witness :
    ((((((build [rowA]).getD 0 dummyUser).2.prompts.getD 0 dummyPrompt).2.images.getD 0
        []).map Prod.fst))
      = ["url", "content", "original_row_index"] :=
  claim_C9_image_fields [rowA] ((build [rowA]).getD 0 dummyUser) (by decide)
    (((build [rowA]).getD 0 dummyUser).2.prompts.getD 0 dummyPrompt) (by decide)
    ((((build [rowA]).getD 0 dummyUser).2.prompts.getD 0 dummyPrompt).2.images.getD 0 [])
    (by decide)

/-- C10: the builder keys its top-level mapping by `str(user_id)`; the stored
`userId` field always equals the key, and every flattened record's `userId` is
the `str()` rendering of some input row's userId cell. -/
theorem claim_C10_userid_str (rows : List Row) :
    ((build rows).map Prod.fst = (sortKeys (rows.map (·.userId))).map pyStr)
    ∧ (∀ su ∈ build rows, su.2.userId = su.1)
    ∧ (∀ b : Bool, ∀ rec ∈ flatten (build rows) b, ∃ r ∈ rows, rec.userId = pyStr r.userId) := by
  refine ⟨?_, ?_, ?_⟩
  · rw [build_def, List.map_map]
    rfl
  · intro su hsu
    rw [build_def] at hsu
    obtain ⟨u, hu, rfl⟩ := List.mem_map.1 hsu
    rfl
  · intro b rec hrec
    obtain ⟨su, hsu, tp, htp, img, himg, rfl⟩ := flatten_mem_elim hrec
    rw [build_def] at hsu
    obtain ⟨u, hu, rfl⟩ := List.mem_map.1 hsu
    obtain ⟨r, hr, hru⟩ := List.mem_map.1 (sortKeys_mem.1 hu)
    exact ⟨r, hr, by rw [hru]⟩

/-- Fixture: a numeric userId cell. -/
def rowN : Row :=
  { userId := Val.nat 123, url := Val.str "http://n", title := Val.str "T",
    content := Val.str "c" }

/-- Dummy record for `getD`. -/
def dummyRec : FlatRecord :=
  { userId := "", title := Val.str "", content := Val.str "", url := Val.str "",
    is_defective := Val.str "", review_comment := Val.str "" }

/-- C10 witness: the numeric userId `123` appears as the string `"123"` both as the
hierarchy key and in the exported record. -/
theorem claim_C10_userid_str_witness :
    (build [rowN]).map Prod.fst = ["123"]
    ∧ ∃ r ∈ [rowN], ((flatten (build [rowN]) false).getD 0 dummyRec).userId = pyStr r.userId :=
  ⟨by decide, (claim_C10_userid_str [rowN]).2.2 false _ (by decide)⟩

/-- Fixture for P2: first row of the group has content `"A"`, a later row of the
same group has content `""`. -/
def rowsP2 : List Row :=
  [{ userId := Val.str "u", url := Val.str "http://a", title := Val.str "T",
     content := Val.str "A" },
   { userId := Val.str "u", url := Val.str "http://b", title := Val.str "T",
     content := Val.str "" }]

/-- C3 counterexample: with a group whose first row has content `"A"` and whose
later row has content `""`, the later row's built item stores content `""` —
the row's own value — not the claimed fallback `"A"`.  (In the source,
`'content' in row` tests the Series index, which contains the `content`
column, so the fallback branch is never taken.) -/
theorem claim_C3_counterexample :
    ((build rowsP2).map (fun su => su.2.prompts.map (fun tp =>
        tp.2.images.map (fun img => dget img "content" (Val.str "?")))))
      = [[[Val.str "A", Val.str ""]]]
    ∧ ((build rowsP2).map (fun su => su.2.prompts.map (fun tp =>
        tp.2.images.map (fun img => dget img "content" (Val.str "?")))))
      ≠ [[[Val.str "A", Val.str "A"]]] := by decide

/-- C3 amended: every built item's `content` is the verbatim content of its own
source row (located by `original_row_index`), empty string included; the
group-content fallback can only fire when the `content` column itself is
absent, never merely because the value is empty. -/
theorem claim_C3_item_content (rows : List Row) :
    ∀ su ∈ build rows, ∀ tp ∈ su.2.prompts, ∀ img ∈ tp.2.images,
      ∃ i r, rows[i]? = some r
        ∧ dget img "original_row_index" (Val.str "?") = Val.nat i
        ∧ dget img "content" (Val.str "?") = r.content := by
  intro su hsu tp htp img himg
  rw [build_def] at hsu
  obtain ⟨u, hu, rfl⟩ := List.mem_map.1 hsu
  simp only at htp
  obtain ⟨tg, htg, rfl⟩ := List.mem_map.1 htp
  simp only at himg
  obtain ⟨p, hp, rfl⟩ := List.mem_map.1 himg
  have hp2 : p ∈ rowsOfUser rows u := by
    rw [(pd_groupby_mem htg).2] at hp
    exact List.mem_of_mem_filter hp
  have henum : p ∈ rows.enum := by
    unfold rowsOfUser at hp2
    exact List.mem_of_mem_filter hp2
  exact ⟨p.1, p.2, List.mem_enum_iff_getElem?.1 henum, rfl, rfl⟩

/-- C3 witness: the second image of the `rowsP2` group satisfies the amended claim
(it stores row index 1 and that row's own content `""`). -/
theorem claim_C3_item_content_witness :
    ∃ i r, rowsP2[i]? = some r
      ∧ dget ((((build rowsP2).getD 0 dummyUser).2.prompts.getD 0 dummyPrompt).2.images.getD 1
          []) "original_row_index" (Val.str "?") = Val.nat i
      ∧ dget ((((build rowsP2).getD 0 dummyUser).2.prompts.getD 0 dummyPrompt).2.images.getD 1
          []) "content" (Val.str "?") = r.content :=
  claim_C3_item_content rowsP2 ((build rowsP2).getD 0 dummyUser) (by decide)
    (((build rowsP2).getD 0 dummyUser).2.prompts.getD 0 dummyPrompt) (by decide)
    ((((build rowsP2).getD 0 dummyUser).2.prompts.getD 0 dummyPrompt).2.images.getD 1 [])
    (by decide)

/-- Modelled from the spec (§4.3): the FlatRecord constructed for one Item — the
enclosing group's `content` verbatim, the item's `url`, and the annotation
defaults `is_defective=false`, `review_comment=""`. -/
def specFlatRecord (userKey : String) (titleKey : Val) (g : Prompt) (img : Img) : FlatRecord :=
  { userId := userKey, title := titleKey, content := g.content,
    url := dget img "url" (Val.str ""),
    is_defective := dget img "is_defective" (Val.bool false),
    review_comment := dget img "review_comment" (Val.str "") }

/-- Modelled from the spec (§4.3): flattening with no filtering walks every item in
traversal order and emits one `specFlatRecord` each. -/
def specFlatten (h : Hierarchy) : List FlatRecord :=
  (h.map (fun su =>
    (su.2.prompts.map (fun tp => tp.2.images.map (specFlatRecord su.1 tp.1 tp.2))).flatten)).flatten

/-- C4: with no filtering, the flattening loop emits exactly the records the spec
describes: for every item the record carries the enclosing group's `content`
(not the item's own resolved content — every record of a group repeats the
group content), the item's `url`, and the defaults `is_defective=false`,
`review_comment=""` when the annotation keys are absent. -/
theorem claim_C4_group_content (h : Hierarchy) :
    flatten h false = specFlatten h
    ∧ (flatten h false).map (fun rec => rec.content)
        = (h.map (fun su => (su.2.prompts.map (fun tp =>
            List.replicate tp.2.images.length tp.2.content)).flatten)).flatten := by
  have h1 : flatten h false = specFlatten h := by
    unfold flatten specFlatten specFlatRecord
    simp
  refine ⟨h1, ?_⟩
  rw [h1]
  unfold specFlatten specFlatRecord
  rw [List.map_flatten, List.map_map]
  refine congrArg List.flatten (List.map_congr_left ?_)
  intro su _
  simp only [Function.comp_apply]
  rw [List.map_flatten, List.map_map]
  refine congrArg List.flatten (List.map_congr_left ?_)
  intro tp _
  simp only [Function.comp_apply]
  rw [List.map_map]
  exact map_const_replicate tp.2.images tp.2.content

/-- Scalar is a boolean. -/
def Val.isBool : Val → Bool
  | .bool _ => true
  | _ => false

/-- Well-typed annotations on one image, as the spec's data model has them:
`is_defective` (when present) is a boolean, `review_comment` (when present)
is a string. -/
def ImgTyped (img : Img) : Prop :=
  (List.lookup "is_defective" img).all Val.isBool = true
  ∧ (List.lookup "review_comment" img).all Val.isStr = true

/-- Well-typed annotations across a hierarchy. -/
def TypedAnnotations (h : Hierarchy) : Prop :=
  ∀ su ∈ h, ∀ tp ∈ su.2.prompts, ∀ img ∈ tp.2.images, ImgTyped img

theorem typed_bool_truthy (img : Img) (k : String)
    (h : (List.lookup k img).all Val.isBool = true) :
    (dget img k (Val.bool false)).truthy
      = decide (dget img k (Val.bool false) = Val.bool true) := by
  unfold dget
  cases hl : List.lookup k img with
  | none => rfl
  | some v =>
    rw [hl] at h
    cases v with
    | bool b => cases b <;> rfl
    | str s => simp [Option.all_some, Val.isBool] at h
    | nat n => simp [Option.all_some, Val.isBool] at h

theorem typed_str_truthy (img : Img) (k : String)
    (h : (List.lookup k img).all Val.isStr = true) :
    (dget img k (Val.str "")).truthy
      = decide (dget img k (Val.str "") ≠ Val.str "") := by
  unfold dget
  cases hl : List.lookup k img with
  | none => rfl
  | some v =>
    rw [hl] at h
    cases v with
    | str s =>
      by_cases hs : s = "" <;> simp [Val.truthy, hs]
    | bool b => simp [Option.all_some, Val.isStr] at h
    | nat n => simp [Option.all_some, Val.isStr] at h

/-- C5: on a hierarchy whose annotations are well typed, the reviewed-only export
keeps exactly the records whose `is_defective` is `true` or whose
`review_comment` is nonempty, in traversal order; filtering everything out
yields the empty sequence, not an error. -/
theorem claim_C5_reviewed_filter (h : Hierarchy) (ht : TypedAnnotations h) :
    flatten h true
      = (flatten h false).filter (fun rec =>
          decide (rec.is_defective = Val.bool true) || decide (rec.review_comment ≠ Val.str ""))
    ∧ ((flatten h false).filter (fun rec =>
          decide (rec.is_defective = Val.bool true) || decide (rec.review_comment ≠ Val.str ""))
        = [] → flatten h true = []) := by
  have main : flatten h true
      = (flatten h false).filter (fun rec =>
          decide (rec.is_defective = Val.bool true)
            || decide (rec.review_comment ≠ Val.str "")) := by
    unfold flatten
    rw [filter_flatten_comm, List.map_map]
    refine congrArg List.flatten (List.map_congr_left ?_)
    intro su hsu
    simp only [Function.comp_apply]
    rw [filter_flatten_comm, List.map_map]
    refine congrArg List.flatten (List.map_congr_left ?_)
    intro tp htp
    simp only [Function.comp_apply]
    rw [map_filter_comm, List.filter_filter]
    refine congrArg _ (List.filter_congr ?_)
    intro img himg
    obtain ⟨hb, hs⟩ := ht su hsu tp htp img himg
    simp only [Bool.not_true, Bool.false_or, Bool.not_false, Bool.true_or, Bool.and_true]
    rw [typed_bool_truthy img "is_defective" hb, typed_str_truthy img "review_comment" hs]
  exact ⟨main, fun he => by rw [main, he]⟩

/-- Fixture: an unannotated image. -/
def imgPlain : Img := [("url", Val.str "http://a"), ("content", Val.str "d")]

/-- Fixture: an image annotated as defective. -/
def imgBad : Img :=
  [("url", Val.str "http://b"), ("content", Val.str "d"), ("is_defective", Val.bool true)]

/-- Fixture: a hierarchy with one reviewed and one unreviewed image. -/
def hierR : Hierarchy :=
  [("u1", { userId := "u1",
            prompts := [(Val.str "T",
              { title := Val.str "T", content := Val.str "d",
                images := [imgPlain, imgBad] })] })]

/-- C5 witness: on `hierR` the reviewed-only export is the filter of the full
export and keeps exactly the defective image. -/
theorem claim_C5_reviewed_filter_witness :
    (flatten hierR true
      = (flatten hierR false).filter (fun rec =>
          decide (rec.is_defective = Val.bool true) || decide (rec.review_comment ≠ Val.str "")))
    ∧ (flatten hierR true).map (fun rec => rec.url) = [Val.str "http://b"] :=
  ⟨(claim_C5_reviewed_filter hierR (by unfold TypedAnnotations ImgTyped; decide)).1, by decide⟩

theorem rename_step_self (cs : List String) (m : String)
    (h : ∃ c ∈ cs, lowerStr c = lowerStr m) : m ∈ rename_step cs m := by
  unfold rename_step
  cases hf : cs.find? (fun c => lowerStr c == lowerStr m) with
  | none =>
    obtain ⟨c, hc, hlc⟩ := h
    have := List.find?_eq_none.1 hf c hc
    simp [hlc] at this
  | some c =>
    have hc : c ∈ cs := List.mem_of_find?_eq_some hf
    exact List.mem_map.2 ⟨c, hc, by simp⟩

theorem rename_step_keeps_mem (cs : List String) (m m' : String) (hm : m ∈ cs)
    (hne : m' = m ∨ lowerStr m' ≠ lowerStr m) : m ∈ rename_step cs m' := by
  unfold rename_step
  cases hf : cs.find? (fun c => lowerStr c == lowerStr m') with
  | none => exact hm
  | some c =>
    rcases hne with heq | hne
    · refine List.mem_map.2 ⟨m, hm, ?_⟩
      by_cases h : (m == c) = true <;> simp [h, heq]
    · have hcl : lowerStr c = lowerStr m' := by
        have hp := List.find?_some hf
        simpa using hp
      have hmc : (m == c) = false := by
        refine beq_eq_false_iff_ne.2 ?_
        intro hmc
        apply hne
        rw [← hcl, ← hmc]
      exact List.mem_map.2 ⟨m, hm, by simp [hmc]⟩

theorem rename_step_keeps_match (cs : List String) (m m' : String)
    (h : ∃ c ∈ cs, lowerStr c = lowerStr m) (hne : lowerStr m' ≠ lowerStr m) :
    ∃ c ∈ rename_step cs m', lowerStr c = lowerStr m := by
  obtain ⟨c, hc, hcl⟩ := h
  unfold rename_step
  cases hf : cs.find? (fun x => lowerStr x == lowerStr m') with
  | none => exact ⟨c, hc, hcl⟩
  | some c₀ =>
    have hc₀l : lowerStr c₀ = lowerStr m' := by
      have hp := List.find?_some hf
      simpa using hp
    by_cases hcc : c = c₀
    · exact absurd (by rw [← hc₀l, ← hcc]; exact hcl) hne
    · have hcond : (c == c₀) = false := beq_eq_false_iff_ne.2 hcc
      exact ⟨c, List.mem_map.2 ⟨c, hc, by simp [hcond]⟩, hcl⟩

theorem foldl_rename_keeps (ms : List String) (cs : List String) (m : String)
    (hm : m ∈ cs) (hdist : ∀ m' ∈ ms, m' = m ∨ lowerStr m' ≠ lowerStr m) :
    m ∈ ms.foldl rename_step cs := by
  induction ms generalizing cs with
  | nil => exact hm
  | cons m₀ ms ih =>
    rw [List.foldl_cons]
    exact ih (rename_step cs m₀)
      (rename_step_keeps_mem cs m m₀ hm (hdist m₀ (List.mem_cons_self _ _)))
      (fun m' hmm => hdist m' (List.mem_cons_of_mem _ hmm))

theorem foldl_rename_reaches (m : String) :
    ∀ (ms : List String) (cs : List String), m ∈ ms →
      (∀ m' ∈ ms, m' = m ∨ lowerStr m' ≠ lowerStr m) →
      (∃ c ∈ cs, lowerStr c = lowerStr m) →
      m ∈ ms.foldl rename_step cs := by
  intro ms
  induction ms with
  | nil =>
    intro cs hm
    exact absurd hm (List.not_mem_nil m)
  | cons m₀ ms ih =>
    intro cs hm hdist hmatch
    rw [List.foldl_cons]
    have hdist' : ∀ m' ∈ ms, m' = m ∨ lowerStr m' ≠ lowerStr m :=
      fun m' hmm => hdist m' (List.mem_cons_of_mem _ hmm)
    rcases hdist m₀ (List.mem_cons_self _ _) with rfl | hne
    · exact foldl_rename_keeps ms _ m₀ (rename_step_self cs m₀ hmatch) hdist'
    · rcases List.mem_cons.1 hm with rfl | hm'
      · exact absurd rfl hne
      · exact ih (rename_step cs m₀) hm' hdist'
          (rename_step_keeps_match cs m m₀ hmatch hne)

/-- C6: ingestion trims whitespace from every column name first, and then, for a
recognized field name with no exact match in the trimmed header but with a
case-insensitive match, renames that column to the canonical name, which is
therefore present in the normalized header. -/
theorem claim_C6_normalization (t : Table) (m : String) (h1 : m ∈ requiredCols)
    (h2 : m ∉ t.cols.map stripStr)
    (h3 : ∃ c ∈ t.cols.map stripStr, lowerStr c = lowerStr m) :
    (ingest t).cols = clean_cols (t.cols.map stripStr) ∧ m ∈ (ingest t).cols := by
  have hcols : (ingest t).cols = clean_cols (t.cols.map stripStr) := rfl
  refine ⟨hcols, ?_⟩
  rw [hcols]
  unfold clean_cols
  apply foldl_rename_reaches m
  · refine List.mem_filter.2 ⟨h1, ?_⟩
    simpa using h2
  · intro m' hm'
    have hm'req : m' ∈ requiredCols := (List.mem_filter.1 hm').1
    have hdist : ∀ a ∈ requiredCols, ∀ b ∈ requiredCols,
        a = b ∨ lowerStr a ≠ lowerStr b := by decide
    exact hdist m' hm'req m h1
  · exact h3

/-- Fixture: the Scenario C header with stray whitespace and mixed case. -/
def tableHdr : Table := { cols := [" UserID ", "url", "title", "content"], cells := [] }

/-- C6 witness: the header `" UserID "` is normalized to the canonical `userId`. -/
theorem claim_C6_normalization_witness :
    ((ingest tableHdr).cols = clean_cols (tableHdr.cols.map stripStr)
      ∧ "userId" ∈ (ingest tableHdr).cols)
    ∧ (ingest tableHdr).cols = ["userId", "url", "title", "content"] :=
  ⟨claim_C6_normalization tableHdr "userId" (by decide) (by decide) (by decide), by decide⟩

/-- C7: building never rejects a row — every row of the set (empty-string keys
from the NaN fill included) is placed in the hierarchy under the `str()` of
its userId and under its title's prompt, as an image carrying its index. -/
theorem claim_C7_every_row_placed (rows : List Row) :
    ∀ p ∈ rows.enum, ∃ su ∈ build rows, su.1 = pyStr p.2.userId
      ∧ ∃ tp ∈ su.2.prompts, tp.1 = p.2.title ∧ mkImg p ∈ tp.2.images :=
  fun p hp => build_covers rows p hp

/-- Fixture: a row whose userId and title were absent and got filled to `""`. -/
def rowE : Row :=
  { userId := Val.str "", url := Val.str "http://e", title := Val.str "",
    content := Val.str "" }

/-- C7 witness: the row with empty userId and title is grouped under the
empty-string keys, not dropped. -/
theorem claim_C7_every_row_placed_witness :
    (∃ su ∈ build [rowE], su.1 = pyStr ((0, rowE) : Nat × Row).2.userId
      ∧ ∃ tp ∈ su.2.prompts, tp.1 = ((0, rowE) : Nat × Row).2.title
        ∧ mkImg (0, rowE) ∈ tp.2.images)
    ∧ (build [rowE]).map Prod.fst = [""] :=
  ⟨claim_C7_every_row_placed [rowE] (0, rowE) (by decide), by decide⟩

theorem isStr_exists {v : Val} (h : v.isStr = true) : ∃ s, v = Val.str s := by
  cases v with
  | str s => exact ⟨s, rfl⟩
  | nat n => simp [Val.isStr] at h
  | bool b => simp [Val.isStr] at h

theorem pd_groupby_keys {α : Type} (key : α → Val) (l : List α) :
    (pd_groupby key l).map Prod.fst = sortKeys (l.map key) := by
  unfold pd_groupby
  rw [List.map_map]
  exact List.map_id'' (fun k => rfl) _

theorem rowsOfUser_map_title (rows : List Row) (u : Val) :
    (rowsOfUser rows u).map (fun p => p.2.title)
      = (rows.filter (fun r => decide (r.userId = u))).map (fun r => r.title) := by
  unfold rowsOfUser
  rw [show (fun p : Nat × Row => p.2.title) = ((fun r : Row => r.title) ∘ Prod.snd) from rfl,
    ← List.map_map, enum_filter_snd (fun r => decide (r.userId = u)) rows]

/-- Fixture: one user, two titles appearing in the order `B`, `A`. -/
def rowsBA : List Row :=
  [{ userId := Val.str "u1", url := Val.str "http://a", title := Val.str "B",
     content := Val.str "x" },
   { userId := Val.str "u1", url := Val.str "http://b", title := Val.str "A",
     content := Val.str "y" }]

/-- C1 counterexample: a user whose titles first appear in the order `B`, `A` gets
them traversed in sorted order `A`, `B` — pandas `groupby` sorts its keys, so
the traversal order of a user's distinct titles is not first-seen order. -/
theorem claim_C1_counterexample :
    ((build rowsBA).map (fun su => su.2.prompts.map Prod.fst))
        ≠ [firstSeen (rowsBA.map (·.title))]
    ∧ ((build rowsBA).map (fun su => su.2.prompts.map Prod.fst)) = [[Val.str "A", Val.str "B"]]
    ∧ firstSeen (rowsBA.map (·.title)) = [Val.str "B", Val.str "A"] := by decide

/-- C1 amended: `build` partitions rows so that two rows land in the same prompt
iff they share `userId` and `title` (each prompt's images are exactly the rows
with that user and title, in input order), but users and each user's distinct
titles are traversed in ascending sorted key order — pandas sort-based
grouping — not in first-seen order. -/
theorem claim_C1_grouping (rows : List Row) (hn : NormalizedRows rows) :
    ((build rows).map Prod.fst = (sortKeys (rows.map (·.userId))).map pyStr)
    ∧ (∀ su ∈ build rows,
        su.2.prompts.map Prod.fst
          = sortKeys ((rows.filter (fun r => decide (r.userId = Val.str su.1))).map
              (fun r => r.title)))
    ∧ (∀ su ∈ build rows, ∀ tp ∈ su.2.prompts,
        tp.2.images = (rowsOfGroup rows (Val.str su.1) tp.1).map mkImg)
    ∧ (∀ p ∈ rows.enum, ∃ su ∈ build rows, su.1 = pyStr p.2.userId
        ∧ ∃ tp ∈ su.2.prompts, tp.1 = p.2.title ∧ mkImg p ∈ tp.2.images) := by
  refine ⟨?_, ?_, ?_, fun p hp => build_covers rows p hp⟩
  · rw [build_def, List.map_map]
    rfl
  · intro su hsu
    rw [build_def] at hsu
    obtain ⟨u, hu, rfl⟩ := List.mem_map.1 hsu
    obtain ⟨r, hr, hru⟩ := List.mem_map.1 (sortKeys_mem.1 hu)
    obtain ⟨s, rfl⟩ := isStr_exists (hru ▸ (hn r hr).1)
    show ((pd_groupby (fun p => p.2.title) (rowsOfUser rows (Val.str s))).map
        (fun tg => (tg.1, ({ title := tg.1, content := firstContent tg.2,
                             images := tg.2.map mkImg } : Prompt)))).map Prod.fst
      = sortKeys ((rows.filter (fun r => decide (r.userId = Val.str s))).map (fun r => r.title))
    rw [List.map_map]
    have hkeys := pd_groupby_keys (fun p : Nat × Row => p.2.title) (rowsOfUser rows (Val.str s))
    rw [rowsOfUser_map_title] at hkeys
    rw [← hkeys]
    exact List.map_congr_left (fun tg _ => rfl)
  · intro su hsu tp htp
    rw [build_def] at hsu
    obtain ⟨u, hu, rfl⟩ := List.mem_map.1 hsu
    obtain ⟨r, hr, hru⟩ := List.mem_map.1 (sortKeys_mem.1 hu)
    obtain ⟨s, rfl⟩ := isStr_exists (hru ▸ (hn r hr).1)
    simp only at htp
    obtain ⟨tg, htg, rfl⟩ := List.mem_map.1 htp
    have htg2 := (pd_groupby_mem htg).2
    show tg.2.map mkImg = (rowsOfGroup rows (Val.str s) tg.1).map mkImg
    rw [htg2]
    unfold rowsOfUser rowsOfGroup
    rw [List.filter_filter]
    refine congrArg (fun l => List.map mkImg l) (List.filter_congr ?_)
    intro p _
    exact Bool.and_comm _ _

/-- C1 witness: on `rowsBA` the single user's prompt keys are the sorted distinct
titles of its rows. -/
theorem claim_C1_grouping_witness :
    ((build rowsBA).getD 0 dummyUser).2.prompts.map Prod.fst
      = sortKeys ((rowsBA.filter (fun r =>
          decide (r.userId = Val.str ((build rowsBA).getD 0 dummyUser).1))).map
            (fun r => r.title)) :=
  (claim_C1_grouping rowsBA (by unfold NormalizedRows; decide)).2.1
    ((build rowsBA).getD 0 dummyUser) (by decide)

/-- The four exported fields the round-trip claim compares, for a flat record. -/
def recTuple (rec : FlatRecord) : String × Val × Val × Val :=
  (rec.userId, rec.title, rec.content, rec.url)

/-- The four fields of an input row, with the userId as rendered by `str()`. -/
def rowTuple (r : Row) : String × Val × Val × Val :=
  (pyStr r.userId, r.title, r.content, r.url)

theorem ingest_canonical (t : Table) (hc : t.cols = requiredCols)
    (hfull : ∀ row ∈ t.cells, ∀ c ∈ row, c.isSome = true) : ingest t = t := by
  obtain ⟨cols, cells⟩ := t
  simp only [Table.cols] at hc
  subst hc
  unfold ingest clean_data strip_columns fillna
  simp only [Table.cols, Table.cells]
  have h1 : requiredCols.map stripStr = requiredCols := by decide
  have h2 : clean_cols requiredCols = requiredCols := by decide
  rw [h1, h2]
  refine congrArg (Table.mk requiredCols) ?_
  have h3 : cells.map (fun r => r.map (fun c => some (c.getD (Val.str ""))))
      = cells.map (fun r => r) := by
    apply List.map_congr_left
    intro r hr
    have h4 : r.map (fun c => some (c.getD (Val.str ""))) = r.map (fun c => c) := by
      apply List.map_congr_left
      intro c hcm
      cases c with
      | some v => rfl
      | none =>
        have := hfull r hr none hcm
        simp at this
    rw [h4, List.map_id']
  rw [h3, List.map_id']

theorem flatten_build_defaults (rows : List Row) :
    ∀ rec ∈ flatten (build rows) false,
      rec.is_defective = Val.bool false ∧ rec.review_comment = Val.str "" := by
  intro rec hrec
  obtain ⟨su, hsu, tp, htp, img, himg, rfl⟩ := flatten_mem_elim hrec
  rw [build_def] at hsu
  obtain ⟨u, hu, rfl⟩ := List.mem_map.1 hsu
  simp only at htp
  obtain ⟨tg, htg, rfl⟩ := List.mem_map.1 htp
  simp only at himg
  obtain ⟨p, hp, rfl⟩ := List.mem_map.1 himg
  exact ⟨rfl, rfl⟩

theorem flatten_build_map_tuple (rows : List Row)
    (hfun : ∀ r ∈ rows, ∀ r' ∈ rows, r.userId = r'.userId → r.title = r'.title →
        r.content = r'.content) :
    List.Perm ((flatten (build rows) false).map recTuple) (rows.map rowTuple) := by
  have hA : (flatten (build rows) false).map recTuple
      = ((pd_groupby (fun p : Nat × Row => p.2.userId) rows.enum).map (fun ug =>
          ((pd_groupby (fun p : Nat × Row => p.2.title) ug.2).map (fun tg =>
            tg.2.map (fun p => (pyStr ug.1, tg.1, firstContent tg.2, p.2.url)))).flatten)).flatten := by
    unfold flatten build
    simp only [Bool.not_false, Bool.true_or, List.filter_true, Function.comp_def,
      List.map_flatten, List.map_map]
    rfl
  have hB : ((pd_groupby (fun p : Nat × Row => p.2.userId) rows.enum).map (fun ug =>
        ((pd_groupby (fun p : Nat × Row => p.2.title) ug.2).map (fun tg =>
          tg.2.map (fun p => (pyStr ug.1, tg.1, firstContent tg.2, p.2.url)))).flatten))
      = ((pd_groupby (fun p : Nat × Row => p.2.userId) rows.enum).map (fun ug =>
        ((pd_groupby (fun p : Nat × Row => p.2.title) ug.2).map (fun tg =>
          tg.2.map (fun p => rowTuple p.2))).flatten)) := by
    apply List.map_congr_left
    intro ug hug
    refine congrArg List.flatten (List.map_congr_left ?_)
    intro tg htg
    have hug2 := (pd_groupby_mem hug).2
    have htg2 := (pd_groupby_mem htg).2
    apply List.map_congr_left
    intro p hp
    have hpug : p ∈ ug.2 := by
      rw [htg2] at hp
      exact List.mem_of_mem_filter hp
    have hptitle : p.2.title = tg.1 := by
      rw [htg2] at hp
      have := (List.mem_filter.1 hp).2
      simpa using this
    have hpuser : p.2.userId = ug.1 := by
      rw [hug2] at hpug
      have := (List.mem_filter.1 hpug).2
      simpa using this
    have hprow : p.2 ∈ rows := by
      rw [hug2] at hpug
      exact snd_mem_of_mem_enum (List.mem_of_mem_filter hpug)
    cases hq : tg.2 with
    | nil =>
      rw [hq] at hp
      exact absurd hp (List.not_mem_nil p)
    | cons q rest =>
      have hqmem : q ∈ tg.2 := by
        rw [hq]
        exact List.mem_cons_self q rest
      have hqug : q ∈ ug.2 := by
        rw [htg2] at hqmem
        exact List.mem_of_mem_filter hqmem
      have hqtitle : q.2.title = tg.1 := by
        rw [htg2] at hqmem
        have := (List.mem_filter.1 hqmem).2
        simpa using this
      have hquser : q.2.userId = ug.1 := by
        rw [hug2] at hqug
        have := (List.mem_filter.1 hqug).2
        simpa using this
      have hqrow : q.2 ∈ rows := by
        rw [hug2] at hqug
        exact snd_mem_of_mem_enum (List.mem_of_mem_filter hqug)
      have hcontent : q.2.content = p.2.content :=
        hfun q.2 hqrow p.2 hprow (by rw [hquser, hpuser]) (by rw [hqtitle, hptitle])
      show (pyStr ug.1, tg.1, q.2.content, p.2.url) = rowTuple p.2
      unfold rowTuple
      rw [← hpuser, ← hptitle, hcontent]
  rw [hA, hB]
  have hinner : ∀ ug ∈ pd_groupby (fun p : Nat × Row => p.2.userId) rows.enum,
      List.Perm (((pd_groupby (fun p : Nat × Row => p.2.title) ug.2).map (fun tg =>
        tg.2.map (fun p => rowTuple p.2))).flatten) (ug.2.map (fun p => rowTuple p.2)) := by
    intro ug _
    have h1 : ((pd_groupby (fun p : Nat × Row => p.2.title) ug.2).map (fun tg =>
        tg.2.map (fun p => rowTuple p.2)))
      = (((pd_groupby (fun p : Nat × Row => p.2.title) ug.2).map Prod.snd).map
          (List.map (fun p : Nat × Row => rowTuple p.2))) := by
      rw [List.map_map]
      rfl
    rw [h1, ← List.map_flatten]
    exact (pd_groupby_flatten_perm _ ug.2).map _
  refine List.Perm.trans (flatten_map_perm _ _ _ hinner) ?_
  have h2 : ((pd_groupby (fun p : Nat × Row => p.2.userId) rows.enum).map (fun ug =>
      ug.2.map (fun p => rowTuple p.2)))
    = (((pd_groupby (fun p : Nat × Row => p.2.userId) rows.enum).map Prod.snd).map
        (List.map (fun p : Nat × Row => rowTuple p.2))) := by
    rw [List.map_map]
    rfl
  rw [h2, ← List.map_flatten]
  refine ((pd_groupby_flatten_perm (fun p : Nat × Row => p.2.userId) rows.enum).map
      (fun p : Nat × Row => rowTuple p.2)).trans ?_
  rw [enum_map_val (fun r => rowTuple r) rows]

/-- Fixture: a canonical table whose rows arrive in userId order `b`, `a`. -/
def tableBA : Table :=
  { cols := ["userId", "url", "title", "content"],
    cells := [[some (Val.str "b"), some (Val.str "http://1"), some (Val.str "T"),
               some (Val.str "c")],
              [some (Val.str "a"), some (Val.str "http://2"), some (Val.str "T"),
               some (Val.str "c")]] }

/-- C2 counterexample: the composed pipeline re-emits the rows sorted by userId
(pandas groupby sorts its keys), so for input order `b`, `a` the output tuple
sequence is not the input sequence — the order-preservation part of the claim
fails. -/
theorem claim_C2_counterexample :
    ((flatten (build (toRows (ingest tableBA))) false).map recTuple)
      ≠ (toRows tableBA).map rowTuple
    ∧ ((flatten (build (toRows (ingest tableBA))) false).map (fun rec => rec.userId))
      = ["a", "b"]
    ∧ ((toRows tableBA).map (fun r => pyStr r.userId)) = ["b", "a"] := by decide

/-- C2 amended: for a canonical table (exact columns `userId,url,title,content`, no
missing cells) in which content is a function of (userId, title), the composed
`flatten(build(ingest(t)), false)` emits records whose (userId, title, content,
url) tuples are a permutation of the input rows' tuples (the traversal is in
sorted key order, not input order), each with `is_defective = false` and
`review_comment = ""`. -/
theorem claim_C2_roundtrip (t : Table) (hc : t.cols = requiredCols)
    (hfull : ∀ row ∈ t.cells, ∀ c ∈ row, c.isSome = true)
    (hfun : ∀ r ∈ toRows t, ∀ r' ∈ toRows t, r.userId = r'.userId → r.title = r'.title →
        r.content = r'.content) :
    List.Perm ((flatten (build (toRows (ingest t))) false).map recTuple)
      ((toRows t).map rowTuple)
    ∧ ∀ rec ∈ flatten (build (toRows (ingest t))) false,
        rec.is_defective = Val.bool false ∧ rec.review_comment = Val.str "" := by
  rw [ingest_canonical t hc hfull]
  exact ⟨flatten_build_map_tuple (toRows t) hfun, flatten_build_defaults (toRows t)⟩

/-- Fixture: Scenario A's table — one user, one title, two rows sharing content. -/
def tableRT : Table :=
  { cols := ["userId", "url", "title", "content"],
    cells := [[some (Val.str "u1"), some (Val.str "http://a"), some (Val.str "T1"),
               some (Val.str "d")],
              [some (Val.str "u1"), some (Val.str "http://b"), some (Val.str "T1"),
               some (Val.str "d")]] }

/-- C2 witness: the round trip on `tableRT` reproduces the input tuples as a
permutation. -/
theorem claim_C2_roundtrip_witness :
    List.Perm ((flatten (build (toRows (ingest tableRT))) false).map recTuple)
      ((toRows tableRT).map rowTuple) :=
  (claim_C2_roundtrip tableRT (by decide) (by decide) (by decide)).1

end Claims
